import Mathlib

/-!
Verification of the command-pattern undo/redo history engine.

The development shallowly embeds the Python sources:
* `graph.py`   → `Graph` and its four mutation operations (Python `set.add`
  always succeeds; `set.remove` raises `KeyError` on an absent element,
  modelled as `Except Unit`).
* `commands.py` → `Cmd` with `Cmd.execute` / `Cmd.rollback`.
* `history.py` → `History` with `History.append`, `History.execute`,
  `History.undo`, `History.redo`.  Each operation is a function from a
  history state and a store to an `OpResult` recording the resulting
  history state, the resulting store, the ordered list of command
  invocations performed (`Event`), and whether an exception propagated
  (`Err`: a command-level failure or an out-of-range list index).
The machine is parametric in the command type, the store and the error
type via `CmdSem`; `graphSem` instantiates it with the graph store.
-/

deriving instance DecidableEq for Except

namespace CommandPattern

/-- `graph.py`: a store holding a set of nodes and a set of edges. -/
structure Graph (α : Type) where
  nodes : Finset α
  edges : Finset (α × α)
deriving DecidableEq

variable {α : Type} [DecidableEq α]

/-- `Graph.add_node`: Python `set.add`, total, silently keeps a duplicate. -/
def Graph.add_node (g : Graph α) (node : α) : Graph α :=
  { g with nodes := insert node g.nodes }

/-- `Graph.remove_node`: Python `set.remove`, raises `KeyError` when absent. -/
def Graph.remove_node (g : Graph α) (node : α) : Except Unit (Graph α) :=
  if node ∈ g.nodes then .ok { g with nodes := g.nodes.erase node } else .error ()

/-- `Graph.add_edge`: Python `set.add` on the edge set. -/
def Graph.add_edge (g : Graph α) (node1 node2 : α) : Graph α :=
  { g with edges := insert (node1, node2) g.edges }

/-- `Graph.remove_edge`: Python `set.remove` on the edge set. -/
def Graph.remove_edge (g : Graph α) (node1 node2 : α) : Except Unit (Graph α) :=
  if (node1, node2) ∈ g.edges then .ok { g with edges := g.edges.erase (node1, node2) }
  else .error ()

/-- `commands.py`: the two concrete command kinds, holding their operands
(the Python objects hold a reference to the graph; here the store is
threaded explicitly). -/
inductive Cmd (α : Type) where
  | addNode (node : α)
  | addEdge (node1 node2 : α)
deriving DecidableEq

/-- `AddNode.execute` / `AddEdge.execute` from `commands.py`. -/
def Cmd.execute : Cmd α → Graph α → Except Unit (Graph α)
  | .addNode n, g => .ok (g.add_node n)
  | .addEdge a b, g => .ok (g.add_edge a b)

/-- `AddNode.rollback` / `AddEdge.rollback` from `commands.py`. -/
def Cmd.rollback : Cmd α → Graph α → Except Unit (Graph α)
  | .addNode n, g => g.remove_node n
  | .addEdge a b, g => g.remove_edge a b

/-- One command invocation performed by a history operation. -/
inductive Event (C : Type) where
  | exec (c : C)
  | rollback (c : C)
deriving DecidableEq

/-- A propagating exception: either a failure raised by a command
(`KeyError` in the Python store) or an out-of-range list index. -/
inductive Err (ε : Type) where
  | cmd (e : ε)
  | index
deriving DecidableEq

/-- The Command contract: fallible forward and inverse application to a
store of type `σ`. -/
structure CmdSem (C σ ε : Type) where
  exec : C → σ → Except ε σ
  rollback : C → σ → Except ε σ

/-- The semantics of the concrete graph commands. -/
def graphSem : CmdSem (Cmd α) (Graph α) Unit :=
  { exec := Cmd.execute, rollback := Cmd.rollback }

/-- `history.py`: the log of commands and the two pointers.  Field names
follow the Python attributes (`self.history`, `self.cursor`,
`self.revision`). -/
structure History (C : Type) where
  history : List C
  cursor : Nat
  revision : Nat
deriving DecidableEq

/-- The outcome of one history operation: the new history state, the new
store, the command invocations performed in order, and the exception that
propagated, if any. -/
structure OpResult (C σ ε : Type) where
  state : History C
  store : σ
  trace : List (Event C)
  err : Option (Err ε)
deriving DecidableEq

variable {C σ ε : Type}

/-- `History.__init__`: empty log, both pointers at 0. -/
def initHistory : History C :=
  { history := [], cursor := 0, revision := 0 }

/-- `History.append`: truncate the log to its first `revision` entries
(Python `self.history[0 : self.revision]`), push the command, increment
`revision`.  The body touches neither the store nor any command. -/
def History.append (st : History C) (s : σ) (command : C) : OpResult C σ ε :=
  { state :=
      { history := st.history.take st.revision ++ [command]
        cursor := st.cursor
        revision := st.revision + 1 }
    store := s
    trace := []
    err := none }

/-- The loop `for i in range(cursor, revision): self.history[i].execute()`:
starting at index `i` with `n` iterations left, thread the store through
each command's `execute`; stop at the first failure (the Python exception
propagates) or at a missing index (Python `IndexError`). -/
def execFrom (sem : CmdSem C σ ε) (log : List C) : σ → Nat → Nat → σ × List (Event C) × Option (Err ε)
  | s, _, 0 => (s, [], none)
  | s, i, n + 1 =>
    match log.get? i with
    | none => (s, [], some .index)
    | some c =>
      match sem.exec c s with
      | .error e => (s, [.exec c], some (.cmd e))
      | .ok s' =>
        let r := execFrom sem log s' (i + 1) n
        (r.1, .exec c :: r.2.1, r.2.2)

/-- `History.execute`: run the pending slice `[cursor, revision)`; only
when the whole loop returns normally does `self.cursor = self.revision`
run (an exception skips it, leaving both pointers unchanged). -/
def History.execute (sem : CmdSem C σ ε) (st : History C) (s : σ) : OpResult C σ ε :=
  let r := execFrom sem st.history s st.cursor (st.revision - st.cursor)
  match r.2.2 with
  | none => { state := { st with cursor := st.revision }, store := r.1, trace := r.2.1, err := none }
  | some e => { state := st, store := r.1, trace := r.2.1, err := some e }

/-- `History.undo`: return at once on an empty log; otherwise set
`revision = max(0, revision - 1)` (Nat subtraction is that clamp), set
`cursor = revision`, and only then call `self.history[self.revision].rollback()`
— so the pointers move even when the rollback raises. -/
def History.undo (sem : CmdSem C σ ε) (st : History C) (s : σ) : OpResult C σ ε :=
  if st.history.isEmpty then { state := st, store := s, trace := [], err := none }
  else
    let r := st.revision - 1
    let st' := { st with revision := r, cursor := r }
    match st.history.get? r with
    | none => { state := st', store := s, trace := [], err := some .index }
    | some c =>
      match sem.rollback c s with
      | .ok s' => { state := st', store := s', trace := [.rollback c], err := none }
      | .error e => { state := st', store := s, trace := [.rollback c], err := some (.cmd e) }

/-- `History.redo`: return at once when `revision == len(history)`;
otherwise call `self.history[self.revision].execute()` first and only on
normal return increment `revision` and set `cursor = revision`. -/
def History.redo (sem : CmdSem C σ ε) (st : History C) (s : σ) : OpResult C σ ε :=
  if st.revision = st.history.length then { state := st, store := s, trace := [], err := none }
  else
    match st.history.get? st.revision with
    | none => { state := st, store := s, trace := [], err := some .index }
    | some c =>
      match sem.exec c s with
      | .ok s' =>
        { state := { st with revision := st.revision + 1, cursor := st.revision + 1 }
          store := s'
          trace := [.exec c]
          err := none }
      | .error e => { state := st, store := s, trace := [.exec c], err := some (.cmd e) }

/-- One of the four public operations, for describing runs. -/
inductive Op (C : Type) where
  | append (command : C)
  | execute
  | undo
  | redo

/-- Dispatch one operation. -/
def applyOp (sem : CmdSem C σ ε) (op : Op C) (st : History C) (s : σ) : OpResult C σ ε :=
  match op with
  | .append c => History.append st s c
  | .execute => History.execute sem st s
  | .undo => History.undo sem st s
  | .redo => History.redo sem st s

/-- Run a sequence of operations, accumulating the invocation events of
every step. -/
def runTrace (sem : CmdSem C σ ε) (ops : List (Op C)) (st : History C) (s : σ)
    (tr : List (Event C)) : History C × σ × List (Event C) :=
  match ops with
  | [] => (st, s, tr)
  | op :: rest =>
    let r := applyOp sem op st s
    runTrace sem rest r.state r.store (tr ++ r.trace)

/-- The empty graph over `ℕ` nodes, used in concrete instances. -/
def gEmpty : Graph ℕ :=
  { nodes := ∅, edges := ∅ }

/-- A one-node graph over `ℕ`, used in concrete instances. -/
def gNode0 : Graph ℕ :=
  { nodes := {0}, edges := ∅ }

/-- C1: `append` replaces the log with its first `revision` entries followed
by the new command (new length `revision + 1`), increments `revision` by 1,
leaves `cursor` unchanged, and performs no store mutation and no command
invocation. -/
theorem C1_append_spec (sem : CmdSem C σ ε) (st : History C) (s : σ) (c : C)
    (h : st.revision ≤ st.history.length) :
    applyOp sem (Op.append c) st s =
      { state :=
          { history := st.history.take st.revision ++ [c]
            cursor := st.cursor
            revision := st.revision + 1 }
        store := s
        trace := []
        err := none } ∧
    (st.history.take st.revision ++ [c]).length = st.revision + 1 := by
  refine ⟨rfl, ?_⟩
  simp [List.length_take]
  omega

/-- Witness for C1 at a concrete state: log `[addNode 0, addNode 1]` at
revision 1; the entry at index 1 is discarded and `addNode 2` appended. -/
theorem C1_append_spec_witness :
    applyOp (graphSem (α := ℕ)) (Op.append (Cmd.addNode 2))
        ⟨[Cmd.addNode 0, Cmd.addNode 1], 1, 1⟩ gEmpty =
      { state :=
          { history := [Cmd.addNode 0, Cmd.addNode 1].take 1 ++ [Cmd.addNode 2]
            cursor := 1
            revision := 2 }
        store := gEmpty
        trace := []
        err := none } ∧
    ([Cmd.addNode 0, Cmd.addNode 1].take 1 ++ [Cmd.addNode 2]).length = 2 :=
  C1_append_spec graphSem ⟨[Cmd.addNode 0, Cmd.addNode 1], 1, 1⟩ gEmpty (Cmd.addNode 2)
    (by decide)

/-- C3 (code behaviour at the failing input): in the reachable state with
log `[addNode 0]`, `cursor = revision = 0` and an empty graph — reached by
`append; execute; undo` — a further `undo()` is not a silent no-op: it
invokes `history[0].rollback()` again, which raises (`KeyError` from
`Graph.remove_node` on the absent node). -/
theorem C3_undo_at_revision_zero_rolls_back :
    runTrace graphSem [Op.append (Cmd.addNode 0), Op.execute, Op.undo] initHistory gEmpty [] =
      (⟨[Cmd.addNode 0], 0, 0⟩, gEmpty,
        [Event.exec (Cmd.addNode 0), Event.rollback (Cmd.addNode 0)]) ∧
    (History.undo graphSem ⟨[Cmd.addNode 0], 0, 0⟩ gEmpty).trace =
      [Event.rollback (Cmd.addNode 0)] ∧
    (History.undo graphSem ⟨[Cmd.addNode 0], 0, 0⟩ gEmpty).err = some (Err.cmd ()) ∧
    (History.undo graphSem ⟨[Cmd.addNode 0], 0, 0⟩ gEmpty).state = ⟨[Cmd.addNode 0], 0, 0⟩ := by
  decide

/-- C4 (counterexample): in the reachable state `append (addNode 0)` from
the initial state — log non-empty, `revision = 1 > 0`, but no command has
ever been applied to the store (the run trace is empty) — `undo()` rolls
back `addNode 0`, a command that is not "the command most recently applied
to the store" (nothing was applied; the rollback indeed fails on the empty
graph). -/
theorem C4_undo_counterexample :
    runTrace graphSem [Op.append (Cmd.addNode 0)] initHistory gEmpty [] =
      (⟨[Cmd.addNode 0], 0, 1⟩, gEmpty, []) ∧
    (History.undo graphSem ⟨[Cmd.addNode 0], 0, 1⟩ gEmpty).trace =
      [Event.rollback (Cmd.addNode 0)] ∧
    (History.undo graphSem ⟨[Cmd.addNode 0], 0, 1⟩ gEmpty).err = some (Err.cmd ()) := by
  decide

/-- One-step equation of `execFrom`: missing index. -/
theorem execFrom_succ_idx (sem : CmdSem C σ ε) (log : List C) {i : Nat}
    (hg : log[i]? = none) (s : σ) (n : Nat) :
    execFrom sem log s i (n + 1) = (s, [], some .index) := by
  simp [execFrom, hg]

/-- One-step equation of `execFrom`: the command at the index fails. -/
theorem execFrom_succ_err (sem : CmdSem C σ ε) (log : List C) {i : Nat} {c : C}
    {s : σ} {e : ε} (hg : log[i]? = some c) (hx : sem.exec c s = .error e) (n : Nat) :
    execFrom sem log s i (n + 1) = (s, [.exec c], some (.cmd e)) := by
  simp [execFrom, hg, hx]

/-- One-step equation of `execFrom`: the command at the index succeeds. -/
theorem execFrom_succ_ok (sem : CmdSem C σ ε) (log : List C) {i : Nat} {c : C}
    {s s' : σ} (hg : log[i]? = some c) (hx : sem.exec c s = .ok s') (n : Nat) :
    execFrom sem log s i (n + 1) =
      ((execFrom sem log s' (i + 1) n).1,
       .exec c :: (execFrom sem log s' (i + 1) n).2.1,
       (execFrom sem log s' (i + 1) n).2.2) := by
  simp [execFrom, hg, hx]

/-- On a normal return (no propagated error), the loop of `execFrom`
invokes exactly the commands of the log slice starting at `i` of length
`n`, in order, each through its `exec`. -/
theorem execFrom_trace_of_ok (sem : CmdSem C σ ε) (log : List C) :
    ∀ (n i : Nat) (s : σ), (execFrom sem log s i n).2.2 = none →
      (execFrom sem log s i n).2.1 = ((log.drop i).take n).map Event.exec := by
  intro n
  induction n with
  | zero =>
    intro i s _
    simp [execFrom]
  | succ n ih =>
    intro i s h
    cases hg : log[i]? with
    | none =>
      rw [execFrom_succ_idx sem log hg] at h
      exact Option.noConfusion h
    | some c =>
      cases hx : sem.exec c s with
      | error e =>
        rw [execFrom_succ_err sem log hg hx] at h
        exact Option.noConfusion h
      | ok s' =>
        rw [execFrom_succ_ok sem log hg hx] at h ⊢
        replace h : (execFrom sem log s' (i + 1) n).2.2 = none := h
        obtain ⟨hlt, hc⟩ := List.getElem?_eq_some.mp hg
        show Event.exec c :: (execFrom sem log s' (i + 1) n).2.1 = _
        rw [List.drop_eq_getElem_cons hlt, hc, List.take_succ_cons, List.map_cons,
          ih (i + 1) s' h]

/-- Splitting the loop of `execFrom`: when the first `m` iterations return
normally, running `m + k` iterations is running `m`, then `k` more from the
store the prefix produced. -/
theorem execFrom_split (sem : CmdSem C σ ε) (log : List C) :
    ∀ (m k i : Nat) (s : σ), (execFrom sem log s i m).2.2 = none →
      execFrom sem log s i (m + k) =
        ((execFrom sem log (execFrom sem log s i m).1 (i + m) k).1,
         (execFrom sem log s i m).2.1 ++
           (execFrom sem log (execFrom sem log s i m).1 (i + m) k).2.1,
         (execFrom sem log (execFrom sem log s i m).1 (i + m) k).2.2) := by
  intro m
  induction m with
  | zero =>
    intro k i s _
    simp [execFrom]
  | succ m ih =>
    intro k i s h
    cases hg : log[i]? with
    | none =>
      rw [execFrom_succ_idx sem log hg] at h
      exact Option.noConfusion h
    | some c =>
      cases hx : sem.exec c s with
      | error e =>
        rw [execFrom_succ_err sem log hg hx] at h
        exact Option.noConfusion h
      | ok s' =>
        replace h : (execFrom sem log s' (i + 1) m).2.2 = none := by
          rw [execFrom_succ_ok sem log hg hx] at h
          exact h
        have hm : m + 1 + k = (m + k) + 1 := by omega
        have hrec := ih k (i + 1) s' h
        have hi : i + 1 + m = i + (m + 1) := by omega
        rw [hi] at hrec
        rw [hm, execFrom_succ_ok sem log hg hx, execFrom_succ_ok sem log hg hx, hrec]
        dsimp only
        rw [List.cons_append]

/-- C2: when `cursor ≤ revision` and `execute()` returns normally, it has
invoked `history[i].execute()` exactly once for each index `i` of the
pending slice `[cursor, revision)`, in increasing order, and has set
`cursor = revision`, leaving the log and `revision` unchanged. -/
theorem C2_execute_spec (sem : CmdSem C σ ε) (st : History C) (s : σ)
    (_hc : st.cursor ≤ st.revision)
    (hok : (History.execute sem st s).err = none) :
    (History.execute sem st s).trace =
      ((st.history.drop st.cursor).take (st.revision - st.cursor)).map Event.exec ∧
    (History.execute sem st s).state = { st with cursor := st.revision } := by
  cases he : (execFrom sem st.history s st.cursor (st.revision - st.cursor)).2.2 with
  | some e =>
    exfalso
    simp [History.execute, he] at hok
  | none =>
    constructor
    · simp [History.execute, he, execFrom_trace_of_ok sem st.history _ _ _ he]
    · simp [History.execute, he]

/-- Witness for C2: a batch of two pending `addNode` commands executed from
cursor 0 to revision 2. -/
theorem C2_execute_spec_witness :
    (History.execute graphSem ⟨[Cmd.addNode 0, Cmd.addNode 1], 0, 2⟩ gEmpty).trace =
      (([Cmd.addNode 0, Cmd.addNode 1].drop 0).take 2).map Event.exec ∧
    (History.execute graphSem ⟨[Cmd.addNode 0, Cmd.addNode 1], 0, 2⟩ gEmpty).state =
      ⟨[Cmd.addNode 0, Cmd.addNode 1], 2, 2⟩ :=
  C2_execute_spec graphSem ⟨[Cmd.addNode 0, Cmd.addNode 1], 0, 2⟩ gEmpty
    (by decide) (by decide)

/-- C4 (amended): for `0 < revision ≤ len(history)`, `undo()` decrements
`revision` by 1, sets `cursor` to it, keeps the log, and invokes exactly
one rollback, of the entry at the new revision index; when additionally
`cursor = revision` on entry, that entry is the last command of the
applied prefix `history[0:cursor]` — the most recently applied command. -/
theorem C4_undo_spec (sem : CmdSem C σ ε) (st : History C) (s : σ)
    (hr : 0 < st.revision) (hlen : st.revision ≤ st.history.length) :
    ∃ c, st.history.get? (st.revision - 1) = some c ∧
      (History.undo sem st s).state.revision = st.revision - 1 ∧
      (History.undo sem st s).state.cursor = st.revision - 1 ∧
      (History.undo sem st s).state.history = st.history ∧
      (History.undo sem st s).trace = [Event.rollback c] ∧
      (st.cursor = st.revision → (st.history.take st.cursor).getLast? = some c) := by
  have hlt : st.revision - 1 < st.history.length := by omega
  cases hg : st.history.get? (st.revision - 1) with
  | none =>
    exfalso
    rw [List.get?_eq_none] at hg
    omega
  | some c =>
    have hg' : st.history[st.revision - 1]? = some c := by
      rw [← List.get?_eq_getElem?]
      exact hg
    have hne : st.history.isEmpty = false := by
      cases hl : st.history with
      | nil =>
        exfalso
        rw [hl] at hlt
        simp at hlt
      | cons a l => rfl
    have key :
        (History.undo sem st s).state =
          { st with revision := st.revision - 1, cursor := st.revision - 1 } ∧
        (History.undo sem st s).trace = [Event.rollback c] := by
      cases hrb : sem.rollback c s <;> simp [History.undo, hne, hg', hrb]
    refine ⟨c, rfl, ?_, ?_, ?_, key.2, ?_⟩
    · rw [key.1]
    · rw [key.1]
    · rw [key.1]
    · intro hcur
      have hlen' : (st.history.take st.cursor).length = st.cursor := by
        simp [List.length_take]
        omega
      rw [List.getLast?_eq_getElem?, hlen', hcur, List.getElem?_take,
        if_pos (by omega : st.revision - 1 < st.revision)]
      exact hg'

/-- Witness for C4 (amended) at the state `⟨[addNode 0], 1, 1⟩`. -/
theorem C4_undo_spec_witness :
    ∃ c, ([Cmd.addNode 0] : List (Cmd ℕ)).get? 0 = some c ∧
      (History.undo graphSem ⟨[Cmd.addNode 0], 1, 1⟩ gNode0).state.revision = 0 ∧
      (History.undo graphSem ⟨[Cmd.addNode 0], 1, 1⟩ gNode0).state.cursor = 0 ∧
      (History.undo graphSem ⟨[Cmd.addNode 0], 1, 1⟩ gNode0).state.history = [Cmd.addNode 0] ∧
      (History.undo graphSem ⟨[Cmd.addNode 0], 1, 1⟩ gNode0).trace = [Event.rollback c] ∧
      ((1 : ℕ) = 1 → (([Cmd.addNode 0] : List (Cmd ℕ)).take 1).getLast? = some c) :=
  C4_undo_spec graphSem ⟨[Cmd.addNode 0], 1, 1⟩ gNode0 (by decide) (by decide)

/-- C5: when `revision == len(history)`, `redo()` changes nothing (state,
store, no invocation, no error); otherwise, when `history[revision]` exists
and its `execute` returns normally, `redo()` invokes it exactly once, then
increments `revision` and sets `cursor = revision`. -/
theorem C5_redo_spec (sem : CmdSem C σ ε) (st : History C) (s : σ) :
    (st.revision = st.history.length →
      History.redo sem st s = { state := st, store := s, trace := [], err := none }) ∧
    (∀ c s', st.history.get? st.revision = some c → sem.exec c s = .ok s' →
      History.redo sem st s =
        { state := { st with revision := st.revision + 1, cursor := st.revision + 1 }
          store := s'
          trace := [Event.exec c]
          err := none }) := by
  constructor
  · intro h
    simp [History.redo, h]
  · intro c s' hget hexec
    have hne : ¬ st.revision = st.history.length := by
      intro h
      rw [List.get?_eq_none.mpr h.ge] at hget
      exact Option.noConfusion hget
    have hget' : st.history[st.revision]? = some c := by
      rw [← List.get?_eq_getElem?]
      exact hget
    simp [History.redo, hne, hget', hexec]

/-- Witness for C5: a no-op `redo` at the end of the log, and an effective
`redo` of `addNode 0` from revision 0. -/
theorem C5_redo_spec_witness :
    History.redo graphSem ⟨[Cmd.addNode 0], 1, 1⟩ gNode0 =
      { state := ⟨[Cmd.addNode 0], 1, 1⟩, store := gNode0, trace := [], err := none } ∧
    History.redo graphSem ⟨[Cmd.addNode 0], 0, 0⟩ gEmpty =
      { state := { history := [Cmd.addNode 0], cursor := 1, revision := 1 }
        store := Graph.add_node gEmpty 0
        trace := [Event.exec (Cmd.addNode 0)]
        err := none } :=
  ⟨(C5_redo_spec graphSem ⟨[Cmd.addNode 0], 1, 1⟩ gNode0).1 rfl,
   (C5_redo_spec graphSem ⟨[Cmd.addNode 0], 0, 0⟩ gEmpty).2 (Cmd.addNode 0)
     (Graph.add_node gEmpty 0) rfl rfl⟩

/-- C6: from a state where the command `c` at position `i` is applied
(`cursor = revision = i + 1`, the store `s` is the result of `c.execute`
and `c.rollback` exactly inverts it), `undo()` followed by `redo()`
restores the store to `s`, keeps the log, and returns the pointers to
`i + 1`. -/
theorem C6_undo_redo_roundtrip (sem : CmdSem C σ ε) (st : History C) (s s₀ : σ)
    (c : C) (i : Nat)
    (hcur : st.cursor = i + 1) (hrev : st.revision = i + 1)
    (hget : st.history.get? i = some c)
    (hrb : sem.rollback c s = .ok s₀) (hex : sem.exec c s₀ = .ok s) :
    History.undo sem st s =
      { state := { st with cursor := i, revision := i }
        store := s₀
        trace := [Event.rollback c]
        err := none } ∧
    History.redo sem { st with cursor := i, revision := i } s₀ =
      { state := st, store := s, trace := [Event.exec c], err := none } := by
  obtain ⟨l, cur, rev⟩ := st
  dsimp only at hcur hrev hget ⊢
  subst hcur hrev
  have hg' : l[i]? = some c := by
    rw [← List.get?_eq_getElem?]
    exact hget
  obtain ⟨hlt, _⟩ := List.getElem?_eq_some.mp hg'
  have hne : l.isEmpty = false := by
    cases hl : l with
    | nil =>
      exfalso
      rw [hl] at hlt
      simp at hlt
    | cons a t => rfl
  constructor
  · simp [History.undo, hne, hg', hrb]
  · have hilen : ¬ i = l.length := by omega
    simp [History.redo, hilen, hg', hex]

/-- Witness for C6: undo then redo of `addNode 0` on the one-node graph. -/
theorem C6_undo_redo_roundtrip_witness :
    History.undo graphSem ⟨[Cmd.addNode 0], 1, 1⟩ gNode0 =
      { state := ⟨[Cmd.addNode 0], 0, 0⟩
        store := ⟨({0} : Finset ℕ).erase 0, ∅⟩
        trace := [Event.rollback (Cmd.addNode 0)]
        err := none } ∧
    History.redo graphSem ⟨[Cmd.addNode 0], 0, 0⟩ ⟨({0} : Finset ℕ).erase 0, ∅⟩ =
      { state := ⟨[Cmd.addNode 0], 1, 1⟩
        store := gNode0
        trace := [Event.exec (Cmd.addNode 0)]
        err := none } :=
  C6_undo_redo_roundtrip graphSem ⟨[Cmd.addNode 0], 1, 1⟩ gNode0
    ⟨({0} : Finset ℕ).erase 0, ∅⟩ (Cmd.addNode 0) 0 rfl rfl rfl (by decide) (by decide)

/-- The bookkeeping invariant: `cursor ≤ revision ≤ len(history)`. -/
def histInv (st : History C) : Prop :=
  st.cursor ≤ st.revision ∧ st.revision ≤ st.history.length

/-- Every single operation preserves the bookkeeping invariant. -/
theorem histInv_applyOp (sem : CmdSem C σ ε) (op : Op C) (st : History C) (s : σ)
    (h : histInv st) : histInv (applyOp sem op st s).state := by
  obtain ⟨h1, h2⟩ := h
  cases op with
  | append c =>
    refine ⟨?_, ?_⟩ <;> simp [applyOp, History.append, List.length_take]
    all_goals omega
  | execute =>
    cases he : (execFrom sem st.history s st.cursor (st.revision - st.cursor)).2.2 with
    | none =>
      refine ⟨?_, ?_⟩ <;> simp [applyOp, History.execute, he]
      all_goals omega
    | some e =>
      refine ⟨?_, ?_⟩ <;> simp [applyOp, History.execute, he]
      all_goals omega
  | undo =>
    by_cases hne : st.history.isEmpty
    · refine ⟨?_, ?_⟩ <;> simp [applyOp, History.undo, hne]
      all_goals omega
    · cases hg : st.history[st.revision - 1]? with
      | none =>
        refine ⟨?_, ?_⟩ <;> simp [applyOp, History.undo, hne, hg]
        all_goals omega
      | some c =>
        cases hrb : sem.rollback c s with
        | ok s' =>
          refine ⟨?_, ?_⟩ <;> simp [applyOp, History.undo, hne, hg, hrb]
          all_goals omega
        | error e =>
          refine ⟨?_, ?_⟩ <;> simp [applyOp, History.undo, hne, hg, hrb]
          all_goals omega
  | redo =>
    by_cases hl : st.revision = st.history.length
    · refine ⟨?_, ?_⟩ <;> simp [applyOp, History.redo, hl]
      all_goals omega
    · cases hg : st.history[st.revision]? with
      | none =>
        refine ⟨?_, ?_⟩ <;> simp [applyOp, History.redo, hl, hg]
        all_goals omega
      | some c =>
        have hlt : st.revision < st.history.length := by omega
        cases hx : sem.exec c s with
        | ok s' =>
          refine ⟨?_, ?_⟩ <;> simp [applyOp, History.redo, hl, hg, hx]
          all_goals omega
        | error e =>
          refine ⟨?_, ?_⟩ <;> simp [applyOp, History.redo, hl, hg, hx]
          all_goals omega

/-- Runs preserve the bookkeeping invariant. -/
theorem histInv_runTrace (sem : CmdSem C σ ε) :
    ∀ (ops : List (Op C)) (st : History C) (s : σ) (tr : List (Event C)),
      histInv st → histInv (runTrace sem ops st s tr).1 := by
  intro ops
  induction ops with
  | nil =>
    intro st s tr h
    simpa [runTrace] using h
  | cons op rest ih =>
    intro st s tr h
    exact ih _ _ _ (histInv_applyOp sem op st s h)

/-- C7: every state reachable from the initial state by any finite
sequence of the four operations satisfies
`0 ≤ cursor ≤ revision ≤ len(history)` (the lower bound holds by the `Nat`
representation, matching the clamps in the code). -/
theorem C7_reachable_invariant (sem : CmdSem C σ ε) (ops : List (Op C)) (s : σ) :
    (runTrace sem ops initHistory s []).1.cursor ≤ (runTrace sem ops initHistory s []).1.revision ∧
    (runTrace sem ops initHistory s []).1.revision ≤
      (runTrace sem ops initHistory s []).1.history.length :=
  histInv_runTrace sem ops initHistory s [] ⟨Nat.le_refl 0, Nat.le_refl 0⟩

/-- C8: if during a batch `execute()` the command at index `i`
(`cursor ≤ i < revision`) fails after the slice `[cursor, i)` succeeded,
the error propagates to the caller (it is not swallowed), neither `cursor`
nor `revision` moves, and the store is exactly the one produced by the
successful prefix — no automatic rollback of the partial batch. -/
theorem C8_execute_failure (sem : CmdSem C σ ε) (st : History C) (s : σ)
    (i : Nat) (c : C) (e : ε)
    (hci : st.cursor ≤ i) (hir : i < st.revision)
    (hget : st.history.get? i = some c)
    (hok : (execFrom sem st.history s st.cursor (i - st.cursor)).2.2 = none)
    (hfail : sem.exec c (execFrom sem st.history s st.cursor (i - st.cursor)).1 = .error e) :
    (History.execute sem st s).err = some (.cmd e) ∧
    (History.execute sem st s).state = st ∧
    (History.execute sem st s).store =
      (execFrom sem st.history s st.cursor (i - st.cursor)).1 := by
  have hg' : st.history[i]? = some c := by
    rw [← List.get?_eq_getElem?]
    exact hget
  have hsplit : st.revision - st.cursor = (i - st.cursor) + ((st.revision - i - 1) + 1) := by
    omega
  have hidx : st.cursor + (i - st.cursor) = i := by omega
  have key :
      execFrom sem st.history s st.cursor (st.revision - st.cursor) =
        ((execFrom sem st.history s st.cursor (i - st.cursor)).1,
         (execFrom sem st.history s st.cursor (i - st.cursor)).2.1 ++ [.exec c],
         some (.cmd e)) := by
    rw [hsplit, execFrom_split sem st.history (i - st.cursor) _ st.cursor s hok, hidx,
      execFrom_succ_err sem st.history hg' hfail]
  refine ⟨?_, ?_, ?_⟩ <;> simp [History.execute, key]

/-- Witness for C8 with a two-command batch over a counter store whose
second command fails: the first command's effect persists, the pointers
stay put, and the error surfaces. -/
def toySem : CmdSem Bool Nat Unit :=
  { exec := fun c n => if c then .ok (n + 1) else .error ()
    rollback := fun _ n => .ok (n - 1) }

theorem C8_execute_failure_witness :
    (History.execute toySem ⟨[true, false], 0, 2⟩ 0).err = some (Err.cmd ()) ∧
    (History.execute toySem ⟨[true, false], 0, 2⟩ 0).state = ⟨[true, false], 0, 2⟩ ∧
    (History.execute toySem ⟨[true, false], 0, 2⟩ 0).store =
      (execFrom toySem [true, false] 0 0 (1 - 0)).1 :=
  C8_execute_failure toySem ⟨[true, false], 0, 2⟩ 0 1 false ()
    (by decide) (by decide) (by decide) (by decide) (by decide)

/-- C9 (counterexample): adding an already-present node (or edge) does not
fail — `Graph.add_node` is total, returns normally (the command layer
yields `.ok`), and leaves the graph unchanged. -/
theorem C9_duplicate_add_counterexample :
    Cmd.execute (Cmd.addNode 0) gNode0 = .ok gNode0 ∧
    Graph.add_node gNode0 0 = gNode0 ∧
    Graph.add_edge (⟨∅, {(0, 1)}⟩ : Graph ℕ) 0 1 = ⟨∅, {(0, 1)}⟩ := by
  decide

/-- C9 (amended): removing an absent node or edge fails; adding a duplicate
node or edge silently succeeds and leaves the graph unchanged; and each
remove is the exact inverse of the matching add provided the element was
absent before the add. -/
theorem C9_graph_store_ops {α : Type} [DecidableEq α] :
    (∀ (g : Graph α) (n : α), n ∉ g.nodes → g.remove_node n = .error ()) ∧
    (∀ (g : Graph α) (a b : α), (a, b) ∉ g.edges → g.remove_edge a b = .error ()) ∧
    (∀ (g : Graph α) (n : α), n ∉ g.nodes → (g.add_node n).remove_node n = .ok g) ∧
    (∀ (g : Graph α) (a b : α), (a, b) ∉ g.edges → (g.add_edge a b).remove_edge a b = .ok g) ∧
    (∀ (g : Graph α) (n : α), n ∈ g.nodes → g.add_node n = g) ∧
    (∀ (g : Graph α) (a b : α), (a, b) ∈ g.edges → g.add_edge a b = g) := by
  refine ⟨?_, ?_, ?_, ?_, ?_, ?_⟩
  · intro g n h
    simp [Graph.remove_node, h]
  · intro g a b h
    simp [Graph.remove_edge, h]
  · intro g n h
    simp [Graph.remove_node, Graph.add_node, Finset.erase_insert h]
  · intro g a b h
    simp [Graph.remove_edge, Graph.add_edge, Finset.erase_insert h]
  · intro g n h
    simp [Graph.add_node, Finset.insert_eq_self.mpr h]
  · intro g a b h
    simp [Graph.add_edge, Finset.insert_eq_self.mpr h]

/-- Witness for C9 (amended) at concrete graphs over `ℕ`. -/
theorem C9_graph_store_ops_witness :
    Graph.remove_node (⟨{1}, ∅⟩ : Graph ℕ) 0 = .error () ∧
    Graph.remove_edge (⟨∅, ∅⟩ : Graph ℕ) 0 1 = .error () ∧
    Graph.remove_node (Graph.add_node (⟨{1}, ∅⟩ : Graph ℕ) 0) 0 = .ok ⟨{1}, ∅⟩ ∧
    Graph.remove_edge (Graph.add_edge (⟨{1}, ∅⟩ : Graph ℕ) 0 1) 0 1 = .ok ⟨{1}, ∅⟩ ∧
    Graph.add_node (⟨{1}, ∅⟩ : Graph ℕ) 1 = ⟨{1}, ∅⟩ ∧
    Graph.add_edge (⟨∅, {(0, 1)}⟩ : Graph ℕ) 0 1 = ⟨∅, {(0, 1)}⟩ :=
  ⟨C9_graph_store_ops.1 _ _ (by decide),
   C9_graph_store_ops.2.1 _ _ _ (by decide),
   C9_graph_store_ops.2.2.1 _ _ (by decide),
   C9_graph_store_ops.2.2.2.1 _ _ _ (by decide),
   C9_graph_store_ops.2.2.2.2.1 _ _ (by decide),
   C9_graph_store_ops.2.2.2.2.2 _ _ _ (by decide)⟩

/-- C10: `AddNode(g, n).execute()` followed by `AddNode(g, n).rollback()`
always yields the graph whose nodes are `g.nodes` with `n` removed; hence
when `n` was already present, the pair does not restore the prior state. -/
theorem C10_addnode_execute_rollback {α : Type} [DecidableEq α] (g : Graph α) (n : α) :
    (Cmd.execute (Cmd.addNode n) g = .ok (g.add_node n) ∧
     Cmd.rollback (Cmd.addNode n) (g.add_node n) = .ok ⟨g.nodes.erase n, g.edges⟩) ∧
    (n ∈ g.nodes → (⟨g.nodes.erase n, g.edges⟩ : Graph α) ≠ g) := by
  refine ⟨⟨rfl, ?_⟩, ?_⟩
  · simp [Cmd.rollback, Graph.remove_node, Graph.add_node, Finset.erase_insert_eq_erase]
  · intro h heq
    have hn : g.nodes.erase n = g.nodes := congrArg Graph.nodes heq
    rw [Finset.erase_eq_self] at hn
    exact hn h

/-- Witness for C10 on the one-node graph `{0}`: execute-then-rollback of a
duplicate `addNode 0` deletes the pre-existing node. -/
theorem C10_addnode_execute_rollback_witness :
    (Cmd.execute (Cmd.addNode 0) gNode0 = .ok (Graph.add_node gNode0 0) ∧
     Cmd.rollback (Cmd.addNode 0) (Graph.add_node gNode0 0) =
       .ok ⟨gNode0.nodes.erase 0, gNode0.edges⟩) ∧
    (⟨gNode0.nodes.erase 0, gNode0.edges⟩ : Graph ℕ) ≠ gNode0 :=
  ⟨(C10_addnode_execute_rollback gNode0 0).1,
   (C10_addnode_execute_rollback gNode0 0).2 (by decide)⟩

end CommandPattern
